import Mathlib

/-!
Verification development for the beekeeper worker-pool library.

The registry operations (`updateNode`, `find`, `sort`, `ExecuteMany`) are
embedded from `src/lib/node.go`; the inbound-message handlers
(`jobTransferCallback`, `jobExecuteCallback`) from `src/lib/callbacks.go`.
Supporting types (`Message`, `Task`, `Result`, `Status`, `NodeInfo`) and the
single-node dispatcher `Execute` are not among the given source files and are
modelled from the specification where needed.  External capabilities that the
handlers call (binary persistence, the Task/Result codec, the local job
runner, the network send) are passed in as explicit oracle parameters, and
the handlers return an explicit record of their observable effects.
-/

namespace Beekeeper

/-- An IP address, as in Go's `net.IP`: a raw byte slice (each entry < 256 in
real executions; the bound is irrelevant to every property proved here). -/
abbrev IP := List Nat

/-- The 12-byte prefix used by the Go standard library to recognise an
IPv4-mapped IPv6 address (`net.v4InV6Prefix`). -/
def v4InV6Prefix : IP := [0, 0, 0, 0, 0, 0, 0, 0, 0, 0, 255, 255]

/-- Embedding of Go's `net.IP.Equal`, which the source uses for all node
identity checks: equal when the byte slices have the same length and the same
contents, or when one is the 4-byte form and the other the 16-byte
IPv4-mapped form of the same IPv4 address. -/
def ipEqual (x y : IP) : Bool :=
  if x.length = y.length then decide (x = y)
  else if x.length = 4 ∧ y.length = 16 then
    decide (y.take 12 = v4InV6Prefix ∧ y.drop 12 = x)
  else if x.length = 16 ∧ y.length = 4 then
    decide (x.take 12 = v4InV6Prefix ∧ x.drop 12 = y)
  else false

/-- Modelled from the spec: the `Status` enumeration is given in the
specification as {Idle, Working} (its Go definition is outside the provided
source files); its zero value is taken to be Idle. -/
inductive Status where
  | idle
  | working
deriving DecidableEq

/-- Modelled from the spec: `NodeInfo` is {operating system identifier, CPU
usage percentage, CPU temperature}.  The two numeric fields are `float32` in
Go; no claim depends on floating-point semantics, so they are carried as
abstract integer-valued fields only so that whole-record replacement can be
stated. -/
structure NodeInfo where
  os : String
  usage : Int
  cpuTemp : Int
deriving DecidableEq

/-- The zero value of `NodeInfo`. -/
def zeroNodeInfo : NodeInfo := { os := "", usage := 0, cpuTemp := 0 }

/-- Embedding of `net.TCPAddr` as used by the source: an IP plus a port.  The
`Zone` string field is never touched by the source and is omitted. -/
structure NodeAddr where
  ip : IP
  port : Nat
deriving DecidableEq

/-- Embedding of the `Node` struct of `node.go`.  The `Conn` pointer is an
opaque handle (`none` = nil); `Addr` is a `*net.TCPAddr` whose nil value is
represented by the zero `NodeAddr` (the source dereferences `Addr` on every
registry entry, so entries always carry a meaningful address). -/
structure Node where
  conn : Option Nat
  addr : NodeAddr
  name : String
  status : Status
  info : NodeInfo
deriving DecidableEq

/-- The zero-value `Node`, returned by `find` when no entry matches. -/
def zeroNode : Node :=
  { conn := none, addr := { ip := [], port := 0 }, name := "",
    status := Status.idle, info := zeroNodeInfo }

/-- The IP of a node, i.e. Go's `node.Addr.IP`. -/
def ipOf (node : Node) : IP := node.addr.ip

/-- Modelled from the spec: the closed `Operation` enumeration of the wire
protocol (its Go constants are outside the provided source files). -/
inductive Operation where
  | statusRequest
  | jobTransfer
  | transferAcknowledge
  | transferFailed
  | jobExecute
  | jobResult
deriving DecidableEq

/-- UTF-8 bytes of a string, for Go's `[]byte(s)` conversion. -/
def strBytes (s : String) : List Nat := s.toUTF8.toList.map (fun b => b.toNat)

/-- Modelled from the spec: the wire envelope `Message` with {Operation tag,
sender name, opaque data payload, NodeInfo}. -/
structure Message where
  operation : Operation
  name : String
  data : List Nat
  nodeInfo : NodeInfo
deriving DecidableEq

/-- Modelled from the spec: a `Task` is a unit of work identified by a UUID
carrying an opaque binary payload. -/
structure Task where
  uuid : String
  payload : List Nat
deriving DecidableEq

/-- Modelled from the spec: a `Result` is {UUID matching the originating
Task, optional error string; empty error string signals success}. -/
structure Result where
  uuid : String
  error : String
deriving DecidableEq

/-- Embedding of `Server.updateNode` from `node.go`: scan the registry for an
entry whose IP equals the new node's IP; replace the first such entry in
place, otherwise append at the end.  The registry field `s.nodes` is the
explicit list argument (the surrounding mutex is the spec's single exclusive
lock; the function body between lock and unlock is purely sequential). -/
def updateNode : List Node → Node → List Node
  | [], node2 => [node2]
  | node :: rest, node2 =>
    if ipEqual (ipOf node) (ipOf node2) then node2 :: rest
    else node :: updateNode rest node2

/-- The registry reached from the empty registry by a sequence of
`updateNode` (upsert) calls, in order. -/
def upserts (ops : List Node) : List Node := ops.foldl updateNode []

/-- Embedding of `Nodes.find` from `node.go`: linear scan for the first entry
whose IP equals the queried address; zero-value `Node` when absent. -/
def find : List Node → IP → Node
  | [], _ => zeroNode
  | node :: rest, addr =>
    if ipEqual (ipOf node) addr then node else find rest addr

/-- The most recently upserted node whose IP equals `ip`, if any: the
rightmost element of `ops` matching the query. -/
def lastUpserted (ops : List Node) (ip : IP) : Option Node :=
  ops.foldl (fun acc op => if ipEqual (ipOf op) ip then some op else acc) none

/-- Embedding of the comparison `bytes.Compare(x, y) < 0` used by
`Nodes.sort`: strict lexicographic order on raw bytes, a proper prefix being
smaller. -/
def bytesLt : List Nat → List Nat → Bool
  | [], [] => false
  | [], _ :: _ => true
  | _ :: _, [] => false
  | a :: xs, b :: ys => if a < b then true else if b < a then false else bytesLt xs ys

/-- Modelled from the Go standard library contract of `sort.Slice`, which
`Nodes.sort` calls: the output is a permutation of the input arranged so that
the supplied less function never holds from a later element toward an earlier
one.  `sort.Slice` is documented as NOT guaranteed to be stable, so any such
permutation is an admissible outcome. -/
def sortSliceSpec (less : Node → Node → Bool) (input output : List Node) : Prop :=
  output.Perm input ∧ output.Pairwise (fun a b => less b a = false)

/-- Embedding of `Nodes.sort` from `node.go` as the relation between the
input slice and an admissible sorted output, with the source's comparator
`bytes.Compare(n[i].Addr.IP, n[j].Addr.IP) < 0`. -/
def sort (input output : List Node) : Prop :=
  sortSliceSpec (fun a b => bytesLt (ipOf a) (ipOf b)) input output

/-- Observable effects of one run of `jobTransferCallback`: whether
`saveBinary` was invoked (and with which path and bytes), and the message
handed to `sendWithConn`, if any. -/
structure TransferOutcome where
  saveCalled : Option (String × List Nat)
  reply : Option Message
deriving DecidableEq

/-- Embedding of `respondTransferError` from `callbacks.go`: the
`TransferFailed` message carrying the error text as its data. -/
def respondTransferError (errMsg : String) : Message :=
  { operation := Operation.transferFailed, name := "", data := strBytes errMsg,
    nodeInfo := zeroNodeInfo }

/-- Embedding of `jobTransferCallback` from `callbacks.go`.  The external
capabilities `createFolderIfNotExist(".beekeeper")` and
`saveBinary(".beekeeper/job.bin", data)` are oracle parameters giving their
outcome; `saveCalled` records that `saveBinary` was reached (invoked at all),
independently of whether it then failed. -/
def jobTransferCallback (createFolder : Except String Unit)
    (saveBinary : List Nat → Except String Unit) (msg : Message) : TransferOutcome :=
  match createFolder with
  | Except.error e => { saveCalled := none, reply := some (respondTransferError e) }
  | Except.ok _ =>
    if msg.data.length = 0 then
      { saveCalled := none, reply := some (respondTransferError "empty data field") }
    else
      match saveBinary msg.data with
      | Except.error e =>
        { saveCalled := some (".beekeeper/job.bin", msg.data),
          reply := some (respondTransferError e) }
      | Except.ok _ =>
        { saveCalled := some (".beekeeper/job.bin", msg.data),
          reply := some { operation := Operation.transferAcknowledge, name := "",
                          data := [], nodeInfo := zeroNodeInfo } }

/-- Observable effects of one run of `jobExecuteCallback`: the successive
assignments to `s.Status` in program order, the `Result` value the handler
built (if it got that far), and the message handed to `sendWithConn`, if
any. -/
structure ExecOutcome where
  statusWrites : List Status
  result : Option Result
  reply : Option Message
deriving DecidableEq

/-- Tail of `jobExecuteCallback` after the Task was decoded and the local run
finished producing `res`: both status writes have happened (`Working` before
the run, `IDLE` after), then `res` is encoded and, on success, sent back as a
`JobResult` message. -/
def finishExecute (res : Result)
    (encodeResult : Result → Except String (List Nat)) : ExecOutcome :=
  match encodeResult res with
  | Except.error _ =>
    { statusWrites := [Status.working, Status.idle], result := some res, reply := none }
  | Except.ok resBytes =>
    { statusWrites := [Status.working, Status.idle], result := some res,
      reply := some { operation := Operation.jobResult, name := "", data := resBytes,
                      nodeInfo := zeroNodeInfo } }

/-- Embedding of `jobExecuteCallback` from `callbacks.go`.  The external
capabilities `decodeTask`, `runLocalJob` and `Result.encode` are oracle
parameters.  A payload that fails to decode is logged and dropped: no status
write, no result, no reply.  Otherwise `s.Status` is set to `Working`, the
job runs (an execution error is converted into a `Result` with the same UUID
and a non-empty error text), `s.Status` is set back to `IDLE`, and the
encoded result is sent. -/
def jobExecuteCallback (decodeTask : List Nat → Except String Task)
    (runLocalJob : Task → Except String Result)
    (encodeResult : Result → Except String (List Nat)) (msg : Message) : ExecOutcome :=
  match decodeTask msg.data with
  | Except.error _ => { statusWrites := [], result := none, reply := none }
  | Except.ok task =>
    match runLocalJob task with
    | Except.error e =>
      finishExecute { uuid := task.uuid, error := "Unable to run job: " ++ e } encodeResult
    | Except.ok r => finishExecute r encodeResult

/-- Modelled from the spec: the single-node dispatcher `Execute` is outside
the provided source files.  Per the specification it either fails with a
transport/protocol error, or returns the Result the remote node produced for
the submitted Task, whose UUID matches the Task's UUID (the application-level
error text rides inside the Result).  The per-node behaviour is an oracle
mapping each node to its transport error or its application error text. -/
def ExecuteModel (behavior : Node → Except String String) (t : Task)
    (node : Node) : Except String Result :=
  match behavior node with
  | Except.error e => Except.error e
  | Except.ok appErr => Except.ok { uuid := t.uuid, error := appErr }

/-- The error wrapping `fmt.Errorf("node %s error: %s", node.Name, err)`
applied by each `ExecuteMany` goroutine before reporting on the error
channel. -/
def wrapNodeError (node : Node) (e : String) : String :=
  "node " ++ node.name ++ " error: " ++ e

/-- Body of the goroutine `ExecuteMany` spawns per node: run `Execute`,
report the wrapped error on the error channel or the result on the result
channel. -/
def launch (behavior : Node → Except String String) (t : Task)
    (node : Node) : Except String Result :=
  match ExecuteModel behavior t node with
  | Except.error e => Except.error (wrapNodeError node e)
  | Except.ok r => Except.ok r

/-- The collection loop of `ExecuteMany`: consume goroutine outcomes in
arrival order, appending successes; the first error short-circuits and is
returned with nil results (`Except.error e` stands for Go's `(nil, err)`
return, `Except.ok rs` for `(rs, nil)`). -/
def collectOutcomes : List (Except String Result) → Except String (List Result)
  | [] => Except.ok []
  | Except.error e :: _ => Except.error e
  | Except.ok r :: rest =>
    match collectOutcomes rest with
    | Except.error e => Except.error e
    | Except.ok rs => Except.ok (r :: rs)

/-- Embedding of `Server.ExecuteMany` from `node.go`.  One goroutine is
spawned per node; the scheduler nondeterminism of channel delivery is made
explicit by quantifying over `arrivals`, the order in which the per-node
outcomes reach the `select` loop — any permutation of the node list. -/
def ExecuteMany (behavior : Node → Except String String) (t : Task)
    (arrivals : List Node) : Except String (List Result) :=
  collectOutcomes (arrivals.map (launch behavior t))

/-- Concrete node used by witnesses: IP 10.0.0.1, name a. -/
def exNodeA : Node :=
  { conn := none, addr := { ip := [10, 0, 0, 1], port := 2000 }, name := "a",
    status := Status.idle, info := zeroNodeInfo }

/-- Concrete node with the same IP as `exNodeA` but a different name. -/
def exNodeB : Node :=
  { conn := none, addr := { ip := [10, 0, 0, 1], port := 2000 }, name := "b",
    status := Status.working, info := zeroNodeInfo }

/-- Concrete node with a fresh IP 10.0.0.2. -/
def exNodeC : Node :=
  { conn := none, addr := { ip := [10, 0, 0, 2], port := 2000 }, name := "c",
    status := Status.idle, info := zeroNodeInfo }

/-- Concrete task used by witnesses. -/
def exTask : Task := { uuid := "task-1", payload := [7] }

/-- Concrete inbound message with a non-empty payload. -/
def exMsg : Message :=
  { operation := Operation.jobExecute, name := "requester", data := [1, 2, 3],
    nodeInfo := zeroNodeInfo }

/-- Concrete inbound message with an empty payload. -/
def exEmptyMsg : Message :=
  { operation := Operation.jobTransfer, name := "requester", data := [],
    nodeInfo := zeroNodeInfo }

theorem take_v4InV6Prefix_append (x : List Nat) :
    (v4InV6Prefix ++ x).take 12 = v4InV6Prefix := rfl

theorem drop_v4InV6Prefix_append (x : List Nat) :
    (v4InV6Prefix ++ x).drop 12 = x := rfl

theorem length_v4InV6Prefix_append (x : List Nat) :
    (v4InV6Prefix ++ x).length = 12 + x.length := by
  simp [v4InV6Prefix]
  omega

/-- Characterisation of `ipEqual`: two addresses are equal exactly when they
are identical, or one is the IPv4-mapped widening of the other. -/
theorem ipEqual_eq_true_iff (x y : IP) :
    ipEqual x y = true ↔
      x = y ∨ (x.length = 4 ∧ y = v4InV6Prefix ++ x) ∨
        (y.length = 4 ∧ x = v4InV6Prefix ++ y) := by
  unfold ipEqual
  split
  · next hlen =>
    simp only [decide_eq_true_eq]
    constructor
    · exact fun h => Or.inl h
    · rintro (h | ⟨h4, hy⟩ | ⟨h4, hx⟩)
      · exact h
      · rw [hy, length_v4InV6Prefix_append] at hlen; omega
      · rw [hx, length_v4InV6Prefix_append] at hlen; omega
  · next hlen =>
    split
    · next h46 =>
      obtain ⟨hx4, hy16⟩ := h46
      simp only [decide_eq_true_eq]
      constructor
      · rintro ⟨htake, hdrop⟩
        refine Or.inr (Or.inl ⟨hx4, ?_⟩)
        rw [← htake, ← hdrop, List.take_append_drop]
      · rintro (h | ⟨hx4', hy⟩ | ⟨hy4, hx⟩)
        · rw [h] at hx4; omega
        · rw [hy]
          exact ⟨take_v4InV6Prefix_append x, drop_v4InV6Prefix_append x⟩
        · rw [hx, length_v4InV6Prefix_append] at hx4; omega
    · next h46 =>
      split
      · next h64 =>
        obtain ⟨hx16, hy4⟩ := h64
        simp only [decide_eq_true_eq]
        constructor
        · rintro ⟨htake, hdrop⟩
          refine Or.inr (Or.inr ⟨hy4, ?_⟩)
          rw [← htake, ← hdrop, List.take_append_drop]
        · rintro (h | ⟨hx4, hy⟩ | ⟨hy4', hx⟩)
          · rw [h] at hx16; omega
          · rw [hx4] at hx16; omega
          · rw [hx]
            exact ⟨take_v4InV6Prefix_append y, drop_v4InV6Prefix_append y⟩
      · next h64 =>
        simp only [Bool.false_eq_true, false_iff]
        rintro (h | ⟨hx4, hy⟩ | ⟨hy4, hx⟩)
        · exact hlen (by rw [h])
        · exact h46 ⟨hx4, by rw [hy, length_v4InV6Prefix_append, hx4]⟩
        · exact h64 ⟨by rw [hx, length_v4InV6Prefix_append, hy4], hy4⟩

theorem ipEqual_symm (x y : IP) : ipEqual x y = ipEqual y x := by
  have h : ipEqual x y = true ↔ ipEqual y x = true := by
    rw [ipEqual_eq_true_iff, ipEqual_eq_true_iff]
    constructor
    · rintro (h | h | h)
      · exact Or.inl h.symm
      · exact Or.inr (Or.inr h)
      · exact Or.inr (Or.inl h)
    · rintro (h | h | h)
      · exact Or.inl h.symm
      · exact Or.inr (Or.inr h)
      · exact Or.inr (Or.inl h)
  cases hxy : ipEqual x y <;> cases hyx : ipEqual y x <;> simp_all

theorem ipEqual_trans {x y z : IP} (hxy : ipEqual x y = true)
    (hyz : ipEqual y z = true) : ipEqual x z = true := by
  rw [ipEqual_eq_true_iff] at hxy hyz ⊢
  rcases hxy with h1 | ⟨hx4, hy⟩ | ⟨hy4, hx⟩
  · rcases hyz with h2 | ⟨hy4, hz⟩ | ⟨hz4, hy⟩
    · exact Or.inl (h1.trans h2)
    · exact Or.inr (Or.inl ⟨by rw [h1]; exact hy4, by rw [hz, h1]⟩)
    · exact Or.inr (Or.inr ⟨hz4, by rw [h1, hy]⟩)
  · rcases hyz with h2 | ⟨hy4, hz⟩ | ⟨hz4, hy'⟩
    · exact Or.inr (Or.inl ⟨hx4, by rw [← h2, hy]⟩)
    · rw [hy, length_v4InV6Prefix_append] at hy4; omega
    · have hxz : x = z := by
        have h1 : (v4InV6Prefix ++ x).drop 12 = (v4InV6Prefix ++ z).drop 12 := by
          rw [← hy, ← hy']
        rwa [drop_v4InV6Prefix_append, drop_v4InV6Prefix_append] at h1
      exact Or.inl hxz
  · rcases hyz with h2 | ⟨hy4', hz⟩ | ⟨hz4, hy'⟩
    · exact Or.inr (Or.inr ⟨by rw [← h2]; exact hy4, by rw [hx, h2]⟩)
    · exact Or.inl (by rw [hx, ← hz])
    · rw [hy', length_v4InV6Prefix_append] at hy4; omega

theorem mem_updateNode {a n2 : Node} {reg : List Node}
    (h : a ∈ updateNode reg n2) : a ∈ reg ∨ a = n2 := by
  induction reg with
  | nil =>
    simp only [updateNode, List.mem_singleton] at h
    exact Or.inr h
  | cons e rest ih =>
    simp only [updateNode] at h
    split at h
    · rcases List.mem_cons.mp h with rfl | h'
      · exact Or.inr rfl
      · exact Or.inl (List.mem_cons_of_mem e h')
    · rcases List.mem_cons.mp h with rfl | h'
      · exact Or.inl (List.mem_cons_self a rest)
      · rcases ih h' with h'' | h''
        · exact Or.inl (List.mem_cons_of_mem e h'')
        · exact Or.inr h''

theorem pairwise_updateNode {reg : List Node} {n2 : Node}
    (h : reg.Pairwise (fun a b => ipEqual (ipOf a) (ipOf b) = false)) :
    (updateNode reg n2).Pairwise (fun a b => ipEqual (ipOf a) (ipOf b) = false) := by
  induction reg with
  | nil => simp [updateNode]
  | cons e rest ih =>
    rw [List.pairwise_cons] at h
    obtain ⟨he, hrest⟩ := h
    simp only [updateNode]
    split
    · next hc =>
      refine List.Pairwise.cons ?_ hrest
      intro b hb
      cases hn : ipEqual (ipOf n2) (ipOf b) with
      | false => rfl
      | true =>
        have h1 : ipEqual (ipOf e) (ipOf b) = true := ipEqual_trans hc hn
        have h2 := he b hb
        rw [h1] at h2
        exact h2
    · next hc =>
      have hcf : ipEqual (ipOf e) (ipOf n2) = false := by
        cases h' : ipEqual (ipOf e) (ipOf n2) with
        | false => rfl
        | true => exact absurd h' hc
      refine List.Pairwise.cons ?_ (ih hrest)
      intro b hb
      rcases mem_updateNode hb with hb' | rfl
      · exact he b hb'
      · exact hcf

theorem pairwise_foldl_updateNode (ops : List Node) :
    ∀ reg : List Node,
      reg.Pairwise (fun a b => ipEqual (ipOf a) (ipOf b) = false) →
      (ops.foldl updateNode reg).Pairwise
        (fun a b => ipEqual (ipOf a) (ipOf b) = false) := by
  induction ops with
  | nil => intro reg h; simpa using h
  | cons op rest ih =>
    intro reg h
    exact ih (updateNode reg op) (pairwise_updateNode h)

theorem upserts_pairwise (ops : List Node) :
    (upserts ops).Pairwise (fun a b => ipEqual (ipOf a) (ipOf b) = false) :=
  pairwise_foldl_updateNode ops [] (List.Pairwise.nil)

theorem updateNode_append {reg : List Node} {n2 : Node}
    (h : ∀ a ∈ reg, ipEqual (ipOf a) (ipOf n2) = false) :
    updateNode reg n2 = reg ++ [n2] := by
  induction reg with
  | nil => rfl
  | cons e rest ih =>
    have he := h e (List.mem_cons_self e rest)
    simp only [updateNode]
    rw [if_neg (by simp [he])]
    rw [ih (fun a ha => h a (List.mem_cons_of_mem e ha))]
    simp

theorem updateNode_replace {reg1 reg2 : List Node} {e n2 : Node}
    (h1 : ∀ a ∈ reg1, ipEqual (ipOf a) (ipOf n2) = false)
    (he : ipEqual (ipOf e) (ipOf n2) = true) :
    updateNode (reg1 ++ e :: reg2) n2 = reg1 ++ n2 :: reg2 := by
  induction reg1 with
  | nil =>
    simp only [List.nil_append, updateNode]
    rw [if_pos he]
  | cons a rest ih =>
    have ha := h1 a (List.mem_cons_self a rest)
    simp only [List.cons_append, updateNode]
    rw [if_neg (by simp [ha])]
    exact congrArg (List.cons a) (ih (fun b hb => h1 b (List.mem_cons_of_mem a hb)))

/-- Claim C1: starting from the empty registry, any sequence of upsert
(`updateNode`) calls leaves a registry with at most one entry per distinct IP
(no two entries have equal IPs); upserting a node whose IP equals an existing
entry's IP replaces that entry in place, leaving every other entry and the
order unchanged, and upserting a node with a fresh IP appends it at the
end. -/
theorem updateNode_upsert_spec :
    (∀ ops : List Node,
      (upserts ops).Pairwise (fun a b => ipEqual (ipOf a) (ipOf b) = false))
    ∧ (∀ (reg1 reg2 : List Node) (e n2 : Node),
        (∀ a ∈ reg1, ipEqual (ipOf a) (ipOf n2) = false) →
        ipEqual (ipOf e) (ipOf n2) = true →
        updateNode (reg1 ++ e :: reg2) n2 = reg1 ++ n2 :: reg2)
    ∧ (∀ (reg : List Node) (n2 : Node),
        (∀ a ∈ reg, ipEqual (ipOf a) (ipOf n2) = false) →
        updateNode reg n2 = reg ++ [n2]) :=
  ⟨upserts_pairwise,
   fun _ _ _ _ h1 he => updateNode_replace h1 he,
   fun _ _ h => updateNode_append h⟩

theorem updateNode_upsert_spec_witness :
    ((upserts [exNodeA, exNodeB, exNodeC]).Pairwise
      (fun a b => ipEqual (ipOf a) (ipOf b) = false))
    ∧ updateNode [exNodeC, exNodeA] exNodeB = [exNodeC, exNodeB]
    ∧ updateNode [exNodeA] exNodeC = [exNodeA] ++ [exNodeC] :=
  ⟨updateNode_upsert_spec.1 [exNodeA, exNodeB, exNodeC],
   updateNode_upsert_spec.2.1 [exNodeC] [] exNodeA exNodeB (by decide) (by decide),
   updateNode_upsert_spec.2.2 [exNodeA] exNodeC (by decide)⟩

theorem find_updateNode_match {reg : List Node} {op : Node} {ip : IP}
    (h : ipEqual (ipOf op) ip = true) :
    find (updateNode reg op) ip = op := by
  induction reg with
  | nil => simp [updateNode, find, h]
  | cons e rest ih =>
    simp only [updateNode]
    split
    · next hc => simp [find, h]
    · next hc =>
      have hef : ipEqual (ipOf e) ip = false := by
        cases h' : ipEqual (ipOf e) ip with
        | false => rfl
        | true =>
          have h2 : ipEqual ip (ipOf op) = true := by
            rw [ipEqual_symm]; exact h
          exact absurd (ipEqual_trans h' h2) hc
      simp [find, hef, ih]

theorem find_updateNode_nomatch {reg : List Node} {op : Node} {ip : IP}
    (h : ipEqual (ipOf op) ip = false) :
    find (updateNode reg op) ip = find reg ip := by
  induction reg with
  | nil => simp [updateNode, find, h]
  | cons e rest ih =>
    simp only [updateNode]
    split
    · next hc =>
      have hef : ipEqual (ipOf e) ip = false := by
        cases h' : ipEqual (ipOf e) ip with
        | false => rfl
        | true =>
          have h2 : ipEqual (ipOf op) (ipOf e) = true := by
            rw [ipEqual_symm]; exact hc
          rw [ipEqual_trans h2 h'] at h
          exact absurd h (by simp)
      simp [find, h, hef]
    · next hc => simp [find, ih]

theorem find_upserts (ops : List Node) (ip : IP) :
    find (upserts ops) ip = (lastUpserted ops ip).elim zeroNode id := by
  induction ops using List.reverseRecOn with
  | nil => rfl
  | append_singleton ops op ih =>
    have hups : upserts (ops ++ [op]) = updateNode (upserts ops) op := by
      simp [upserts, List.foldl_append]
    have hlast : lastUpserted (ops ++ [op]) ip =
        if ipEqual (ipOf op) ip then some op else lastUpserted ops ip := by
      simp [lastUpserted, List.foldl_append]
    rw [hups, hlast]
    cases hc : ipEqual (ipOf op) ip with
    | true =>
      rw [find_updateNode_match hc]
      simp
    | false =>
      rw [find_updateNode_nomatch hc, if_neg (by simp [hc])]
      exact ih

theorem lastUpserted_eq_none {ops : List Node} {ip : IP}
    (h : ∀ op ∈ ops, ipEqual (ipOf op) ip = false) :
    lastUpserted ops ip = none := by
  induction ops with
  | nil => rfl
  | cons op rest ih =>
    have hop := h op (List.mem_cons_self op rest)
    simp only [lastUpserted, List.foldl_cons]
    rw [if_neg (by simp [hop])]
    exact ih (fun b hb => h b (List.mem_cons_of_mem op hb))

/-- Claim C2: in any registry reachable by upserts from the empty registry,
`find ip` returns the zero-value `Node` when no node with an equal IP was
ever upserted, and returns the most recently upserted node with an equal IP
otherwise (`lastUpserted` picks the rightmost matching upsert). -/
theorem find_spec :
    (∀ (ops : List Node) (ip : IP),
      (∀ op ∈ ops, ipEqual (ipOf op) ip = false) →
      find (upserts ops) ip = zeroNode)
    ∧ (∀ (ops : List Node) (ip : IP) (w : Node),
      lastUpserted ops ip = some w → find (upserts ops) ip = w) := by
  constructor
  · intro ops ip h
    rw [find_upserts, lastUpserted_eq_none h]
    rfl
  · intro ops ip w h
    rw [find_upserts, h]
    rfl

theorem find_spec_witness :
    find (upserts [exNodeC]) [10, 0, 0, 1] = zeroNode
    ∧ find (upserts [exNodeA, exNodeC, exNodeB]) [10, 0, 0, 1] = exNodeB :=
  ⟨find_spec.1 [exNodeC] [10, 0, 0, 1] (by decide),
   find_spec.2 [exNodeA, exNodeC, exNodeB] [10, 0, 0, 1] exNodeB (by decide)⟩

theorem jobTransferCallback_empty (createFolder : Except String Unit)
    (saveBinary : List Nat → Except String Unit) (msg : Message)
    (hdata : msg.data = []) :
    (jobTransferCallback createFolder saveBinary msg).saveCalled = none
    ∧ ∃ e, (jobTransferCallback createFolder saveBinary msg).reply
        = some (respondTransferError e) := by
  cases createFolder with
  | error e => exact ⟨rfl, e, rfl⟩
  | ok u =>
    have hlen : msg.data.length = 0 := by rw [hdata]; rfl
    refine ⟨?_, "empty data field", ?_⟩
    · simp [jobTransferCallback, hlen]
    · simp [jobTransferCallback, hlen]

/-- Claim C3: a job-transfer message with an empty data payload makes the
handler reply with a `TransferFailed` message carrying an error text and
never reach `saveBinary`, so the job binary file is not written or
overwritten; conversely `saveBinary` is invoked only on a non-empty
payload. -/
theorem jobTransfer_empty_payload :
    (∀ (createFolder : Except String Unit)
       (saveBinary : List Nat → Except String Unit) (msg : Message),
      msg.data = [] →
      (jobTransferCallback createFolder saveBinary msg).saveCalled = none
      ∧ ∃ e, (jobTransferCallback createFolder saveBinary msg).reply
          = some (respondTransferError e))
    ∧ (∀ (createFolder : Except String Unit)
       (saveBinary : List Nat → Except String Unit) (msg : Message),
      (jobTransferCallback createFolder saveBinary msg).saveCalled ≠ none →
      msg.data ≠ []) := by
  refine ⟨jobTransferCallback_empty, ?_⟩
  intro createFolder saveBinary msg h hdata
  exact h (jobTransferCallback_empty createFolder saveBinary msg hdata).1

theorem jobTransfer_empty_payload_witness :
    (jobTransferCallback (Except.ok ()) (fun _ => Except.ok ()) exEmptyMsg).saveCalled = none
    ∧ ∃ e, (jobTransferCallback (Except.ok ()) (fun _ => Except.ok ()) exEmptyMsg).reply
        = some (respondTransferError e) :=
  jobTransfer_empty_payload.1 (Except.ok ()) (fun _ => Except.ok ()) exEmptyMsg rfl

theorem finishExecute_fields (res : Result)
    (encodeResult : Result → Except String (List Nat)) :
    (finishExecute res encodeResult).statusWrites = [Status.working, Status.idle]
    ∧ (finishExecute res encodeResult).result = some res := by
  unfold finishExecute
  cases encodeResult res <;> exact ⟨rfl, rfl⟩

theorem runJobError_ne_empty (e : String) : ("Unable to run job: " ++ e) ≠ "" := by
  intro h
  have h1 := congrArg String.length h
  rw [String.length_append] at h1
  have h2 : ("Unable to run job: " : String).length = 19 := rfl
  have h3 : ("" : String).length = 0 := rfl
  omega

/-- Claim C4: when the decoded Task's local execution fails, the handler
builds a Result whose UUID is the Task's UUID and whose error field is
non-empty, and the `Status` field is written `Working` then `IDLE` around the
run, so starting from Idle the observed trajectory is Idle, Working, Idle
even on failure. -/
theorem jobExecute_failure_spec (decodeTask : List Nat → Except String Task)
    (runLocalJob : Task → Except String Result)
    (encodeResult : Result → Except String (List Nat)) (msg : Message)
    (task : Task) (e : String)
    (hdec : decodeTask msg.data = Except.ok task)
    (hrun : runLocalJob task = Except.error e) :
    (jobExecuteCallback decodeTask runLocalJob encodeResult msg).result
        = some { uuid := task.uuid, error := "Unable to run job: " ++ e }
    ∧ ("Unable to run job: " ++ e) ≠ ""
    ∧ Status.idle ::
        (jobExecuteCallback decodeTask runLocalJob encodeResult msg).statusWrites
        = [Status.idle, Status.working, Status.idle] := by
  have hcall : jobExecuteCallback decodeTask runLocalJob encodeResult msg
      = finishExecute { uuid := task.uuid, error := "Unable to run job: " ++ e }
          encodeResult := by
    simp [jobExecuteCallback, hdec, hrun]
  obtain ⟨h1, h2⟩ := finishExecute_fields
    { uuid := task.uuid, error := "Unable to run job: " ++ e } encodeResult
  refine ⟨?_, runJobError_ne_empty e, ?_⟩
  · rw [hcall]; exact h2
  · rw [hcall, h1]

theorem jobExecute_failure_spec_witness :
    (jobExecuteCallback (fun _ => Except.ok exTask) (fun _ => Except.error "boom")
        (fun _ => Except.ok []) exMsg).result
        = some { uuid := exTask.uuid, error := "Unable to run job: " ++ "boom" }
    ∧ ("Unable to run job: " ++ "boom") ≠ ""
    ∧ Status.idle ::
        (jobExecuteCallback (fun _ => Except.ok exTask) (fun _ => Except.error "boom")
          (fun _ => Except.ok []) exMsg).statusWrites
        = [Status.idle, Status.working, Status.idle] :=
  jobExecute_failure_spec (fun _ => Except.ok exTask) (fun _ => Except.error "boom")
    (fun _ => Except.ok []) exMsg exTask "boom" rfl rfl

/-- Claim C5: a `JobExecute` message whose payload fails to decode into a
Task is dropped with no reply of any kind: the handler hands nothing to the
connection. -/
theorem jobExecute_decode_failure_no_reply (decodeTask : List Nat → Except String Task)
    (runLocalJob : Task → Except String Result)
    (encodeResult : Result → Except String (List Nat)) (msg : Message) (e : String)
    (hdec : decodeTask msg.data = Except.error e) :
    (jobExecuteCallback decodeTask runLocalJob encodeResult msg).reply = none := by
  simp [jobExecuteCallback, hdec]

theorem jobExecute_decode_failure_no_reply_witness :
    (jobExecuteCallback (fun _ => Except.error "bad") (fun _ => Except.ok ⟨"", ""⟩)
        (fun _ => Except.ok []) exMsg).reply = none :=
  jobExecute_decode_failure_no_reply (fun _ => Except.error "bad")
    (fun _ => Except.ok ⟨"", ""⟩) (fun _ => Except.ok []) exMsg "bad" rfl

/-- Claim C10: when the payload of a `JobExecute` message fails to decode,
the handler performs no write to the server's `Status` field at all — in
particular it is never set to `Working`. -/
theorem jobExecute_decode_failure_no_status_write
    (decodeTask : List Nat → Except String Task)
    (runLocalJob : Task → Except String Result)
    (encodeResult : Result → Except String (List Nat)) (msg : Message) (e : String)
    (hdec : decodeTask msg.data = Except.error e) :
    (jobExecuteCallback decodeTask runLocalJob encodeResult msg).statusWrites = [] := by
  simp [jobExecuteCallback, hdec]

theorem jobExecute_decode_failure_no_status_write_witness :
    (jobExecuteCallback (fun _ => Except.error "bad") (fun _ => Except.ok ⟨"", ""⟩)
        (fun _ => Except.ok []) exMsg).statusWrites = [] :=
  jobExecute_decode_failure_no_status_write (fun _ => Except.error "bad")
    (fun _ => Except.ok ⟨"", ""⟩) (fun _ => Except.ok []) exMsg "bad" rfl

theorem launch_ok {behavior : Node → Except String String} {t : Task}
    {node : Node} {s : String} (h : behavior node = Except.ok s) :
    launch behavior t node = Except.ok { uuid := t.uuid, error := s } := by
  simp [launch, ExecuteModel, h]

theorem launch_error {behavior : Node → Except String String} {t : Task}
    {node : Node} {e : String} (h : behavior node = Except.error e) :
    launch behavior t node = Except.error (wrapNodeError node e) := by
  simp [launch, ExecuteModel, h]

theorem executeMany_ok_of_all_ok (behavior : Node → Except String String)
    (t : Task) :
    ∀ L : List Node, (∀ node ∈ L, ∃ s, behavior node = Except.ok s) →
      ∃ rs, ExecuteMany behavior t L = Except.ok rs ∧ rs.length = L.length ∧
        ∀ r ∈ rs, r.uuid = t.uuid := by
  intro L
  induction L with
  | nil => exact fun _ => ⟨[], rfl, rfl, by simp⟩
  | cons node rest ih =>
    intro h
    obtain ⟨s, hs⟩ := h node (List.mem_cons_self node rest)
    obtain ⟨rs, hrs, hlen, huuid⟩ :=
      ih (fun b hb => h b (List.mem_cons_of_mem node hb))
    refine ⟨{ uuid := t.uuid, error := s } :: rs, ?_, by simp [hlen], ?_⟩
    · simp only [ExecuteMany, List.map_cons] at hrs ⊢
      rw [launch_ok hs, collectOutcomes, hrs]
    · intro r hr
      rcases List.mem_cons.mp hr with rfl | hr'
      · rfl
      · exact huuid r hr'

theorem executeMany_error_of_exists (behavior : Node → Except String String)
    (t : Task) :
    ∀ L : List Node, (∃ node ∈ L, ∃ e, behavior node = Except.error e) →
      ∃ w e, w ∈ L ∧ behavior w = Except.error e ∧
        ExecuteMany behavior t L = Except.error (wrapNodeError w e) := by
  intro L
  induction L with
  | nil =>
    rintro ⟨node, hmem, -⟩
    exact absurd hmem (List.not_mem_nil node)
  | cons node rest ih =>
    rintro ⟨w0, hw0, e0, he0⟩
    cases hb : behavior node with
    | error e =>
      refine ⟨node, e, List.mem_cons_self node rest, hb, ?_⟩
      simp only [ExecuteMany, List.map_cons]
      rw [launch_error hb, collectOutcomes]
    | ok s =>
      have hw0' : w0 ∈ rest := by
        rcases List.mem_cons.mp hw0 with rfl | h'
        · rw [hb] at he0; cases he0
        · exact h'
      obtain ⟨w, e, hw, he, hrun⟩ := ih ⟨w0, hw0', e0, he0⟩
      refine ⟨w, e, List.mem_cons_of_mem node hw, he, ?_⟩
      simp only [ExecuteMany, List.map_cons] at hrun ⊢
      rw [launch_ok hb, collectOutcomes, hrun]

/-- Claim C6: when every per-node `Execute` invocation succeeds,
`ExecuteMany` returns a nil error together with exactly as many Results as
there are nodes (collected in arrival order, over any delivery schedule),
each Result's UUID being the submitted Task's UUID. -/
theorem ExecuteMany_all_success (behavior : Node → Except String String)
    (t : Task) (n arrivals : List Node) (hperm : arrivals.Perm n)
    (hok : ∀ node ∈ n, ∃ s, behavior node = Except.ok s) :
    ∃ rs, ExecuteMany behavior t arrivals = Except.ok rs ∧ rs.length = n.length ∧
      ∀ r ∈ rs, r.uuid = t.uuid := by
  obtain ⟨rs, h1, h2, h3⟩ := executeMany_ok_of_all_ok behavior t arrivals
    (fun node hn => hok node (hperm.mem_iff.mp hn))
  exact ⟨rs, h1, by rw [h2, hperm.length_eq], h3⟩

theorem ExecuteMany_all_success_witness :
    ∃ rs, ExecuteMany (fun _ => Except.ok "") exTask [exNodeA, exNodeC]
        = Except.ok rs ∧ rs.length = [exNodeA, exNodeC].length ∧
      ∀ r ∈ rs, r.uuid = exTask.uuid :=
  ExecuteMany_all_success (fun _ => Except.ok "") exTask [exNodeA, exNodeC]
    [exNodeA, exNodeC] (List.Perm.refl _) (fun _ _ => ⟨"", rfl⟩)

/-- Claim C7: when at least one per-node `Execute` invocation fails,
`ExecuteMany` returns nil results together with a non-nil error
(`Except.error` stands for Go's `(nil, err)` return), and the error text is
the failing node's error wrapped with that node's name — whatever successes
other nodes had already delivered. -/
theorem ExecuteMany_first_error (behavior : Node → Except String String)
    (t : Task) (n arrivals : List Node) (hperm : arrivals.Perm n)
    (hbad : ∃ node ∈ n, ∃ e, behavior node = Except.error e) :
    ∃ w e, w ∈ n ∧ behavior w = Except.error e ∧
      ExecuteMany behavior t arrivals = Except.error (wrapNodeError w e) := by
  obtain ⟨w0, hw0, e0, he0⟩ := hbad
  obtain ⟨w, e, hw, he, hrun⟩ := executeMany_error_of_exists behavior t arrivals
    ⟨w0, hperm.mem_iff.mpr hw0, e0, he0⟩
  exact ⟨w, e, hperm.mem_iff.mp hw, he, hrun⟩

theorem ExecuteMany_first_error_witness :
    ∃ w e, w ∈ [exNodeA]
      ∧ (fun (_ : Node) => (Except.error "down" : Except String String)) w
          = Except.error e
      ∧ ExecuteMany (fun _ => Except.error "down") exTask [exNodeA]
          = Except.error (wrapNodeError w e) :=
  ExecuteMany_first_error (fun _ => Except.error "down") exTask [exNodeA]
    [exNodeA] (List.Perm.refl _)
    ⟨exNodeA, List.mem_cons_self exNodeA [], "down", rfl⟩

/-- Claim C9: `ExecuteMany` on an empty node list returns a nil error and a
nil result list at once: the collection loop never runs, and no `Execute`
invocation happens for any behaviour oracle. -/
theorem ExecuteMany_empty (behavior : Node → Except String String) (t : Task) :
    ExecuteMany behavior t [] = Except.ok [] := rfl

theorem bytesLt_total : ∀ x y : List Nat, bytesLt y x = false →
    bytesLt x y = true ∨ x = y := by
  intro x
  induction x with
  | nil =>
    intro y hy
    cases y with
    | nil => exact Or.inr rfl
    | cons b ys => exact Or.inl rfl
  | cons a xs ih =>
    intro y hy
    cases y with
    | nil => exact absurd hy (by simp [bytesLt])
    | cons b ys =>
      simp only [bytesLt] at hy ⊢
      by_cases hab : a < b
      · rw [if_pos hab]
        exact Or.inl rfl
      · by_cases hba : b < a
        · rw [if_pos hba] at hy
          exact absurd hy (by simp)
        · rw [if_neg hba, if_neg hab] at hy
          rw [if_neg hab, if_neg hba]
          rcases ih ys hy with h | h
          · exact Or.inl h
          · have hab' : a = b := by omega
            exact Or.inr (by rw [hab', h])

/-- Claim C8 (amended): any output `Nodes.sort` may produce is a permutation
of the input that is non-decreasing under raw IP byte comparison: every
earlier entry's IP is lexicographically below or equal to every later one's.
Stability for equal IPs is NOT part of the contract (see the
counterexample). -/
theorem sort_sorted_perm (input output : List Node) (h : sort input output) :
    output.Perm input
    ∧ output.Pairwise
        (fun a b => bytesLt (ipOf a) (ipOf b) = true ∨ ipOf a = ipOf b) := by
  obtain ⟨hperm, hsorted⟩ := h
  exact ⟨hperm, hsorted.imp (fun hab => bytesLt_total _ _ hab)⟩

theorem sort_sorted_perm_witness :
    ([exNodeA, exNodeC] : List Node).Perm [exNodeC, exNodeA]
    ∧ ([exNodeA, exNodeC] : List Node).Pairwise
        (fun a b => bytesLt (ipOf a) (ipOf b) = true ∨ ipOf a = ipOf b) :=
  sort_sorted_perm [exNodeC, exNodeA] [exNodeA, exNodeC]
    ⟨List.Perm.swap exNodeC exNodeA [], by decide⟩

/-- Claim C8 counterexample: `exNodeA` and `exNodeB` carry the same IP, and
swapping them is an admissible outcome of `Nodes.sort` (it is a sorted
permutation, and `sort.Slice` gives no stability guarantee), yet the
relative input order of the equal-IP nodes is not kept: the claim that the
ordering is stable is false. -/
theorem sort_not_stable :
    sort [exNodeA, exNodeB] [exNodeB, exNodeA]
    ∧ ¬ ([exNodeB, exNodeA].filter (fun nd => ipOf nd == ipOf exNodeA)
          = [exNodeA, exNodeB].filter (fun nd => ipOf nd == ipOf exNodeA)) := by
  refine ⟨⟨List.Perm.swap exNodeA exNodeB [], by decide⟩, by decide⟩

end Beekeeper
